import Mathlib

/-!
Verification development for the text-to-outline core: a shallow embedding of
the typographic substitution engine, the TrueType contour decoder
(`GlyphPath`), the glyph positioner (`StringPath`) and the face layout facade
(`FontFace.Equals`, `ToPath`), together with theorems about them.

Strings handled by the substitution engine are modelled as lists of bytes
(`List Nat`, each entry below 256), exactly as the Go code indexes `s[i]`
byte-wise.  Runes (Unicode code points) are modelled as `Nat`.
-/

namespace Canvas

/-- Modelled from the spec and the Go standard library contract of
`utf8.DecodeRuneInString` (an external collaborator of the engine): decodes
the first rune of a byte list, returning the code point and the number of
bytes consumed.  An empty input yields `(RuneError, 0)`; any non-empty input
consumes at least one byte, malformed sequences yielding `(RuneError, 1)`. -/
def decodeRune (s : List Nat) : Nat × Nat :=
  match s with
  | [] => (0xFFFD, 0)
  | b0 :: rest =>
    if b0 < 0x80 then (b0, 1)
    else if b0 < 0xC2 then (0xFFFD, 1)
    else if b0 < 0xE0 then
      match rest with
      | [] => (0xFFFD, 1)
      | b1 :: _ =>
        if b1 < 0x80 ∨ 0xBF < b1 then (0xFFFD, 1)
        else ((b0 % 0x20) * 64 + b1 % 0x40, 2)
    else if b0 < 0xF0 then
      let lo := if b0 = 0xE0 then 0xA0 else 0x80
      let hi := if b0 = 0xED then 0x9F else 0xBF
      match rest with
      | [] => (0xFFFD, 1)
      | b1 :: rest2 =>
        if b1 < lo ∨ hi < b1 then (0xFFFD, 1)
        else
          match rest2 with
          | [] => (0xFFFD, 1)
          | b2 :: _ =>
            if b2 < 0x80 ∨ 0xBF < b2 then (0xFFFD, 1)
            else ((b0 % 0x10) * 4096 + (b1 % 0x40) * 64 + b2 % 0x40, 3)
    else if b0 < 0xF5 then
      let lo := if b0 = 0xF0 then 0x90 else 0x80
      let hi := if b0 = 0xF4 then 0x8F else 0xBF
      match rest with
      | [] => (0xFFFD, 1)
      | b1 :: rest2 =>
        if b1 < lo ∨ hi < b1 then (0xFFFD, 1)
        else
          match rest2 with
          | [] => (0xFFFD, 1)
          | b2 :: rest3 =>
            if b2 < 0x80 ∨ 0xBF < b2 then (0xFFFD, 1)
            else
              match rest3 with
              | [] => (0xFFFD, 1)
              | b3 :: _ =>
                if b3 < 0x80 ∨ 0xBF < b3 then (0xFFFD, 1)
                else ((b0 % 0x8) * 262144 + (b1 % 0x40) * 4096 +
                      (b2 % 0x40) * 64 + b3 % 0x40, 4)
    else (0xFFFD, 1)

/-- Modelled from the spec and the Go standard library contract of
`unicode.IsSpace` (Unicode White_Space property), used by the quote
heuristic. -/
def isspace (r : Nat) : Bool :=
  [9, 10, 11, 12, 13, 32, 133, 160, 5760, 8232, 8233, 8239, 8287,
   12288].contains r || (8192 ≤ r && r ≤ 8202)

/-- Embeds `ispunct` from the source: membership in the explicit ASCII
punctuation list of the Go code. -/
def ispunct (r : Nat) : Bool :=
  [33, 34, 35, 36, 37, 38, 39, 40, 41, 42, 43, 44, 45, 46, 47,
   58, 59, 60, 61, 62, 63, 64,
   91, 92, 93, 94, 95, 96,
   123, 124, 125, 126].contains r

/-- Embeds `isWordBoundary` from the source: the zero rune (text boundary),
whitespace, or punctuation. -/
def isWordBoundary (r : Nat) : Bool :=
  r == 0 || isspace r || ispunct r

/-- Embeds `stringReplace` from the source: `s[:i] + target + s[i+n:]`
together with the length of the inserted text. -/
def stringReplace (s : List Nat) (i n : Nat) (target : List Nat) :
    List Nat × Nat :=
  (s.take i ++ target ++ s.drop (i + n), target.length)

/-- Embeds the open-flag update of `quoteReplace` from the source (the
smartypants quote-direction heuristic): classifies the previous and next
runes and decides whether the quote opens or closes. -/
def quoteDirection (prev next : Nat) (isOpen : Bool) : Bool :=
  if prev = 0 ∧ next = 0 then !isOpen
  else if isspace prev ∧ next = 0 then true
  else if ispunct prev ∧ next = 0 then false
  else if next = 0 then false
  else if prev = 0 ∧ isspace next then false
  else if isspace prev ∧ isspace next then !isOpen
  else if ispunct prev ∧ isspace next then false
  else if isspace next then false
  else if prev = 0 ∧ ispunct next then false
  else if isspace prev ∧ ispunct next then true
  else if ispunct prev ∧ ispunct next then !isOpen
  else if ispunct next then false
  else if prev = 0 then true
  else if isspace prev then true
  else if ispunct prev then true
  else false

/-- Embeds `quoteReplace` from the source: replaces the one-byte quote at
`i` with the directional mark chosen by the heuristic.  Returns the new byte
list, the replacement length and the updated open flag. -/
def quoteReplace (s : List Nat) (i : Nat) (prev quote next : Nat)
    (isOpen : Bool) : List Nat × Nat × Bool :=
  let isOpen' := quoteDirection prev next isOpen
  if quote = 34 then
    if isOpen' then ((stringReplace s i 1 [226, 128, 156]).1, 3, isOpen')
    else ((stringReplace s i 1 [226, 128, 157]).1, 3, isOpen')
  else if quote = 39 then
    if isOpen' then ((stringReplace s i 1 [226, 128, 152]).1, 3, isOpen')
    else ((stringReplace s i 1 [226, 128, 153]).1, 3, isOpen')
  else (s, 1, isOpen')

/-- The rune that follows position `k` of the byte list, as the scanner
computes it: decoded if `k` is in range, `0` (the boundary marker) past the
end. -/
def nextRune (s : List Nat) (k : Nat) : Nat :=
  if k < s.length then (decodeRune (s.drop k)).1 else 0

/-- Embeds one iteration body of the scan loop of `substituteTypography`
(after the rune at `i` has been decoded into `r` with byte length `sz`;
`rPrev` is the rune decoded at the previous scan position).  Returns the new
byte list, the length that the scan position advances by, and the updated
single/double open-quote flags. -/
def typoBody (s : List Nat) (i : Nat) (rPrev r : Nat) (sz : Nat)
    (inSingle inDouble : Bool) : List Nat × Nat × Bool × Bool :=
  if i + 2 < s.length ∧ s.getD i 0 = 46 ∧ s.getD (i+1) 0 = 46 ∧
      s.getD (i+2) 0 = 46 then
    let (s', n) := stringReplace s i 3 [226, 128, 166]
    (s', n, inSingle, inDouble)
  else if i + 4 < s.length ∧ s.getD i 0 = 46 ∧ s.getD (i+1) 0 = 32 ∧
      s.getD (i+2) 0 = 46 ∧ s.getD (i+3) 0 = 32 ∧ s.getD (i+4) 0 = 46 then
    let (s', n) := stringReplace s i 5 [226, 128, 166]
    (s', n, inSingle, inDouble)
  else if i + 2 < s.length ∧ s.getD i 0 = 45 ∧ s.getD (i+1) 0 = 45 ∧
      s.getD (i+2) 0 = 45 then
    let (s', n) := stringReplace s i 3 [226, 128, 148]
    (s', n, inSingle, inDouble)
  else if i + 1 < s.length ∧ s.getD i 0 = 45 ∧ s.getD (i+1) 0 = 45 then
    let (s', n) := stringReplace s i 2 [226, 128, 147]
    (s', n, inSingle, inDouble)
  else if i + 2 < s.length ∧ s.getD i 0 = 40 ∧ s.getD (i+1) 0 = 99 ∧
      s.getD (i+2) 0 = 41 then
    let (s', n) := stringReplace s i 3 [194, 169]
    (s', n, inSingle, inDouble)
  else if i + 2 < s.length ∧ s.getD i 0 = 40 ∧ s.getD (i+1) 0 = 114 ∧
      s.getD (i+2) 0 = 41 then
    let (s', n) := stringReplace s i 3 [194, 174]
    (s', n, inSingle, inDouble)
  else if i + 3 < s.length ∧ s.getD i 0 = 40 ∧ s.getD (i+1) 0 = 116 ∧
      s.getD (i+2) 0 = 109 ∧ s.getD (i+3) 0 = 41 then
    let (s', n) := stringReplace s i 4 [226, 132, 162]
    (s', n, inSingle, inDouble)
  else if s.getD i 0 = 34 ∨ s.getD i 0 = 39 then
    if s.getD i 0 = 34 then
      let q := quoteReplace s i rPrev r (nextRune s (i+1)) inDouble
      (q.1, q.2.1, inSingle, q.2.2)
    else
      let q := quoteReplace s i rPrev r (nextRune s (i+1)) inSingle
      (q.1, q.2.1, q.2.2, inDouble)
  else if i + 2 < s.length ∧ s.getD (i+1) 0 = 47 ∧
      isWordBoundary rPrev = true ∧ rPrev ≠ 47 then
    if isWordBoundary (nextRune s (i+3)) = true ∧ nextRune s (i+3) ≠ 47 then
      if s.getD i 0 = 49 ∧ s.getD (i+2) 0 = 50 then
        let (s', n) := stringReplace s i 3 [194, 189]
        (s', n, inSingle, inDouble)
      else if s.getD i 0 = 49 ∧ s.getD (i+2) 0 = 52 then
        let (s', n) := stringReplace s i 3 [194, 188]
        (s', n, inSingle, inDouble)
      else if s.getD i 0 = 51 ∧ s.getD (i+2) 0 = 52 then
        let (s', n) := stringReplace s i 3 [194, 190]
        (s', n, inSingle, inDouble)
      else if s.getD i 0 = 43 ∧ s.getD (i+2) 0 = 45 then
        let (s', n) := stringReplace s i 3 [194, 177]
        (s', n, inSingle, inDouble)
      else (s, sz, inSingle, inDouble)
    else (s, sz, inSingle, inDouble)
  else (s, sz, inSingle, inDouble)

/-- Embeds the scan loop of `substituteTypography`, fuelled: each recursive
step first advances the position by the pending `size`, stops when the end of
the byte list is reached, otherwise decodes the rune at the new position and
runs the loop body.  `none` means the fuel ran out (the totality theorem shows
this never happens for fuel `s.length + 1`). -/
def subTypoLoop (fuel : Nat) (s : List Nat) (i r size : Nat)
    (inSingle inDouble : Bool) : Option (List Nat × Bool × Bool) :=
  let i' := i + size
  if s.length ≤ i' then some (s, inSingle, inDouble)
  else
    match fuel with
    | 0 => none
    | fuel + 1 =>
      let d := decodeRune (s.drop i')
      let (s', size', inSingle', inDouble') :=
        typoBody s i' r d.1 d.2 inSingle inDouble
      subTypoLoop fuel s' i' d.1 size' inSingle' inDouble'

/-- Embeds `substituteTypography` from the source: when typography is enabled
runs the single forward scan over the byte list with the carried-in quote
flags, otherwise returns the input unchanged.  The fuel `s.length + 1` is
sufficient (proved below), so the `getD` fallback is never taken. -/
def substituteTypography (typography : Bool) (s : List Nat)
    (inSingle inDouble : Bool) : List Nat × Bool × Bool :=
  if typography then
    (subTypoLoop (s.length + 1) s 0 0 0 inSingle inDouble).getD
      (s, inSingle, inDouble)
  else (s, inSingle, inDouble)

/-- The digit-slash-digit substitution table of the source: first byte,
last byte, replacement bytes. -/
def fracTable : List (Nat × Nat × List Nat) :=
  [(49, 50, [194, 189]), (49, 52, [194, 188]),
   (51, 52, [194, 190]), (43, 45, [194, 177])]

/-!
The TrueType outline decoder.  Coordinates are modelled as exact rationals
(the Go code computes in `float64`; the claims concern the algebraic
structure of the computation, which the rational model captures exactly).
Contour point coordinates come from the external font-parsing capability and
are modelled as unbounded integers.
-/

/-- Modelled from the spec: one glyph's contour data as supplied by the
font-parsing capability (point coordinates, on-curve flags, contour
end-point indices). -/
structure Contour where
  endPoints : List Nat
  onCurve : List Bool
  xCoordinates : List Int
  yCoordinates : List Int
deriving DecidableEq

/-- X coordinate of point `k`, as a rational. -/
def Contour.X (c : Contour) (k : Nat) : ℚ := (c.xCoordinates.getD k 0 : ℚ)

/-- Y coordinate of point `k`, as a rational. -/
def Contour.Y (c : Contour) (k : Nat) : ℚ := (c.yCoordinates.getD k 0 : ℚ)

/-- On-curve flag of point `k`. -/
def Contour.on (c : Contour) (k : Nat) : Bool := c.onCurve.getD k false

/-- Modelled from the spec: one operation accepted by the vector path sink
(the 2-D path builder is an external collaborator). -/
inductive PathOp where
  | moveTo (x y : ℚ)
  | lineTo (x y : ℚ)
  | quadTo (cx cy x y : ℚ)
  | close
deriving DecidableEq

/-- Modelled from the spec: the vector path sink, as the ordered list of
operations sent to it. -/
structure Path where
  ops : List PathOp
deriving DecidableEq

def Path.moveTo (p : Path) (x y : ℚ) : Path := ⟨p.ops ++ [PathOp.moveTo x y]⟩

def Path.lineTo (p : Path) (x y : ℚ) : Path := ⟨p.ops ++ [PathOp.lineTo x y]⟩

def Path.quadTo (p : Path) (cx cy x y : ℚ) : Path :=
  ⟨p.ops ++ [PathOp.quadTo cx cy x y]⟩

def Path.close (p : Path) : Path := ⟨p.ops ++ [PathOp.close]⟩

def Path.append (p q : Path) : Path := ⟨p.ops ++ q.ops⟩

/-- Modelled from the spec: `StartPos` of the path sink, the start position
of the current sub-path, i.e. the position of the most recent move
operation (`(0, 0)` when none was issued). -/
def Path.startPos (p : Path) : ℚ × ℚ :=
  p.ops.foldl
    (fun acc op =>
      match op with
      | PathOp.moveTo a b => (a, b)
      | _ => acc)
    (0, 0)

/-- The decoder's per-contour scan state: the path built so far and the
`first`, `firstOff`, `prevOff` flags of the source. -/
structure GState where
  p : Path
  first : Bool
  firstOff : Bool
  prevOff : Bool
deriving DecidableEq

/-- Embeds the body of the inner point loop of `GlyphPath` at point index
`i` (the contour's first point has index `j`, kept implicitly by the flags;
`f` is the scale `size / unitsPerEm` and `(x, y)` the origin). -/
def glyphStep (c : Contour) (f x y : ℚ) (st : GState) (i : Nat) : GState :=
  if st.first then
    if c.on i then
      { st with p := st.p.moveTo (x + c.X i * f) (y + c.Y i * f),
                first := false }
    else if !st.prevOff then
      { st with firstOff := true, prevOff := true }
    else
      let xMid := (c.X (i-1) + c.X i) / 2
      let yMid := (c.Y (i-1) + c.Y i) / 2
      { st with p := st.p.moveTo (x + xMid * f) (y + yMid * f) }
  else if !st.prevOff then
    if c.on i then
      { st with p := st.p.lineTo (x + c.X i * f) (y + c.Y i * f) }
    else
      { st with prevOff := true }
  else
    if c.on i then
      { st with p := st.p.quadTo (x + c.X (i-1) * f) (y + c.Y (i-1) * f)
                                 (x + c.X i * f) (y + c.Y i * f),
                prevOff := false }
    else
      let xMid := (c.X (i-1) + c.X i) / 2
      let yMid := (c.Y (i-1) + c.Y i) / 2
      { st with p := st.p.quadTo (x + c.X (i-1) * f) (y + c.Y (i-1) * f)
                                 (x + xMid * f) (y + yMid * f) }

/-- Embeds the contour-closing code of `GlyphPath` after the point loop:
`j` is the contour's first point index, `iF` the index one past its last
processed point. -/
def glyphClose (c : Contour) (f x y : ℚ) (j iF : Nat) (st : GState) : Path :=
  let start := st.p.startPos
  let p1 :=
    if st.firstOff then
      if st.prevOff then
        let xMid := (c.X (iF-1) + c.X j) / 2
        let yMid := (c.Y (iF-1) + c.Y j) / 2
        st.p.quadTo (x + xMid * f) (y + yMid * f) start.1 start.2
      else
        st.p.quadTo (x + c.X (iF-1) * f) (y + c.Y (iF-1) * f) start.1 start.2
    else if st.prevOff then
      st.p.quadTo (x + c.X (iF-1) * f) (y + c.Y (iF-1) * f) start.1 start.2
    else st.p
  p1.close

/-- Embeds the processing of one contour of `GlyphPath`: the point loop
runs over indices `i`, `i+1`, ..., `endPoint` (empty when `endPoint < i`),
then the contour is closed.  Returns the extended path and the next point
index. -/
def processContour (c : Contour) (f x y : ℚ) (e i : Nat) (p : Path) :
    Path × Nat :=
  let idxs := List.range' i (e + 1 - i)
  let st := idxs.foldl (glyphStep c f x y) ⟨p, true, false, false⟩
  let iF := i + (e + 1 - i)
  (glyphClose c f x y i iF st, iF)

/-- Embeds the outer contour loop of `GlyphPath` over the end-point index
list. -/
def processContours (c : Contour) (f x y : ℚ) :
    List Nat → Nat → Path → Path
  | [], _, p => p
  | e :: es, i, p =>
    let r := processContour c f x y e i p
    processContours c f x y es r.2 r.1

/-- The point index at which the contour after the given end-point list
starts, matching the index returned by `processContour` step by step. -/
def nextIndex : List Nat → Nat → Nat
  | [], i => i
  | e :: es, i => nextIndex es (i + (e + 1 - i))

/-- Modelled from the spec: the font resource as consumed by the decoder —
the outline-format flag, units per em, and the per-glyph contour lookup of
the font-parsing capability (which may fail, return no contour, or return
contour data). -/
structure SFNT where
  isTrueType : Bool
  unitsPerEm : ℚ
  glyphContour : Nat → Except String (Option Contour)

/-- The pair returned by `GlyphPath`: the (possibly absent) outline and the
(possibly absent) error. -/
structure GlyphResult where
  path : Option Path
  err : Option String
deriving DecidableEq

/-- Embeds `GlyphPath` from the source: for a TrueType font, fetches the
glyph's contour data and decodes every contour into the path, scaling by
`size / unitsPerEm` and translating by `(x, y)`; for any other outline
format, fails with the unsupported-format error and no outline. -/
def GlyphPath (sfnt : SFNT) (glyphID : Nat) (size x y : ℚ) : GlyphResult :=
  if sfnt.isTrueType then
    match sfnt.glyphContour glyphID with
    | Except.error e => ⟨none, some e⟩
    | Except.ok none => ⟨none, none⟩
    | Except.ok (some c) =>
      let f := size / sfnt.unitsPerEm
      ⟨some (processContours c f x y c.endPoints 0 ⟨[]⟩), none⟩
  else ⟨none, some "CFF not supported"⟩

/-- Modelled from the spec: one positioned glyph produced by the shaping
capability — glyph identifier, advances and offsets in font units (int32 in
the source; arithmetic on them wraps, see `wrap32`). -/
structure Glyph where
  id : Nat
  xAdvance : Int
  yAdvance : Int
  xOffset : Int
  yOffset : Int
deriving DecidableEq

/-- Signed 32-bit wrap-around, the behaviour of the int32 pen coordinates in
`StringPath`. -/
def wrap32 (z : Int) : Int := (z + 2^31) % 2^32 - 2^31

/-- The outcome of `StringPath`, with the final pen position exposed so that
the positioning property can be stated (the source keeps the pen in local
variables and returns only the path and the error). -/
structure StringPathResult where
  path : Path
  penX : Int
  penY : Int
  err : Option String
deriving DecidableEq

/-- Embeds the glyph loop of `StringPath`: each positioned glyph is decoded
at the pen position plus its own offset (scaled to output units), the result
appended when present, and the pen advanced by the glyph's advance; a decode
failure stops the loop, keeping the outline accumulated so far. -/
def stringPathLoop (sfnt : SFNT) (size f : ℚ) :
    List Glyph → Path → Int → Int → StringPathResult
  | [], p, x, y => ⟨p, x, y, none⟩
  | g :: gs, p, x, y =>
    let res := GlyphPath sfnt g.id size ((wrap32 (x + g.xOffset) : ℚ) * f)
        ((wrap32 (y + g.yOffset) : ℚ) * f)
    match res.err with
    | some e => ⟨p, x, y, some e⟩
    | none =>
      let p' := match res.path with
        | some q => p.append q
        | none => p
      stringPathLoop sfnt size f gs p' (wrap32 (x + g.xAdvance))
        (wrap32 (y + g.yAdvance))

/-- Embeds `StringPath` from the source, taking the shaped glyph run (the
output of the external shaping capability) directly: runs the glyph loop
from an empty path and pen position `(0, 0)`. -/
def StringPath (sfnt : SFNT) (glyphs : List Glyph) (size : ℚ) :
    StringPathResult :=
  stringPathLoop sfnt size (size / sfnt.unitsPerEm) glyphs ⟨[]⟩ 0 0

/-!
The face layout facade: face equality and text-to-path conversion.
-/

/-- Embeds the `FontFace` value from the source.  The `font` field is the
identity of the referenced font object (the source compares the `*Font`
pointer); `color` is the RGBA quadruple; `deco` is the decoration list,
with each decorator named by an identifier (the source compares the list
with `reflect.DeepEqual`).  The derived fields `scale`, `voffset`,
`fauxBold`, `fauxItalic` are carried along but take no part in equality. -/
structure FontFace where
  font : Nat
  size : ℚ
  style : Int
  variant : Int
  color : Nat × Nat × Nat × Nat
  deco : List Nat
  scale : ℚ
  voffset : ℚ
  fauxBold : ℚ
  fauxItalic : ℚ
deriving DecidableEq

/-- Embeds `FontFace.Equals` from the source: identical font reference and
equal size, style, variant, color and decoration list. -/
def FontFace.Equals (ff other : FontFace) : Bool :=
  decide (ff.font = other.font) && decide (ff.size = other.size) &&
  decide (ff.style = other.style) && decide (ff.variant = other.variant) &&
  decide (ff.color = other.color) && decide (ff.deco = other.deco)

/-- Modelled from the spec: one outline segment returned by the glyph-load
capability, with end/control points in 26.6 fixed-point font units. -/
inductive Segment where
  | moveTo (p : Int × Int)
  | lineTo (p : Int × Int)
  | quadTo (p1 p2 : Int × Int)
  | cubeTo (p1 p2 p3 : Int × Int)
deriving DecidableEq

/-- Modelled from the spec: the sfnt capability consumed by the facade —
glyph-index lookup by rune, glyph loading at a pixel size, kerning and
advance queries, each of which may fail. -/
structure FontImpl where
  glyphIndex : Nat → Except Unit Nat
  loadGlyph : Nat → ℚ → Except Unit (List Segment)
  kern : Nat → Nat → ℚ → Except Unit Int
  glyphAdvance : Nat → ℚ → Except Unit Int

/-- Modelled from the spec: the vector path sink as consumed by the facade,
as the tree of operations sent to it (including append and the outward
offset used for faux bold). -/
inductive CPath where
  | empty
  | moveTo (p : CPath) (x y : ℚ)
  | lineTo (p : CPath) (x y : ℚ)
  | quadTo (p : CPath) (cx cy x y : ℚ)
  | cubeTo (p : CPath) (c1x c1y c2x c2y x y : ℚ)
  | close (p : CPath)
  | offset (p : CPath) (d : ℚ)
deriving DecidableEq

/-- Modelled from the spec: emptiness of a sink path — no drawing operation
was issued. -/
def CPath.isEmpty : CPath → Bool
  | CPath.empty => true
  | CPath.moveTo _ _ _ => false
  | CPath.lineTo _ _ _ => false
  | CPath.quadTo _ _ _ _ _ => false
  | CPath.cubeTo _ _ _ _ _ _ _ => false
  | CPath.close p => p.isEmpty
  | CPath.offset p _ => p.isEmpty

/-- Modelled from the spec: conversion from 26.6 fixed point to output
units. -/
def fromI26_6 (v : Int) : ℚ := (v : ℚ) / 64

/-- Modelled from the spec: conversion of a 26.6 fixed-point point. -/
def fromP26_6 (p : Int × Int) : ℚ × ℚ := (fromI26_6 p.1, fromI26_6 p.2)

/-- Embeds the segment loop of `FontFace.ToPath` for one glyph: applies the
faux-italic shear and the vertical offset to every point, translates by the
pen position `xpen`, and closes a sub-path when a later move starts while
the previous sub-path returned to its start.  The state is the path, the
current sub-path start `start0` and the current point `endPt`; `k` is the
segment index. -/
def segLoop (fauxItalic voffset xpen : ℚ) :
    List Segment → Nat → CPath → ℚ × ℚ → ℚ × ℚ →
    CPath × (ℚ × ℚ) × (ℚ × ℚ)
  | [], _, p, start0, endPt => (p, start0, endPt)
  | seg :: rest, k, p, start0, endPt =>
    match seg with
    | Segment.moveTo a =>
      let p := if k ≠ 0 ∧ start0 = endPt then p.close else p
      let e0 := fromP26_6 a
      let e := (e0.1 + fauxItalic * (-e0.2), e0.2)
      segLoop fauxItalic voffset xpen rest (k+1)
        (CPath.moveTo p (xpen + e.1) (voffset - e.2)) e e
    | Segment.lineTo a =>
      let e0 := fromP26_6 a
      let e := (e0.1 + fauxItalic * (-e0.2), e0.2)
      segLoop fauxItalic voffset xpen rest (k+1)
        (CPath.lineTo p (xpen + e.1) (voffset - e.2)) start0 e
    | Segment.quadTo a b =>
      let c0 := fromP26_6 a
      let e0 := fromP26_6 b
      let cp := (c0.1 + fauxItalic * (-c0.2), c0.2)
      let e := (e0.1 + fauxItalic * (-e0.2), e0.2)
      segLoop fauxItalic voffset xpen rest (k+1)
        (CPath.quadTo p (xpen + cp.1) (voffset - cp.2)
          (xpen + e.1) (voffset - e.2)) start0 e
    | Segment.cubeTo a b cpt =>
      let c1 := fromP26_6 a
      let c2 := fromP26_6 b
      let e0 := fromP26_6 cpt
      let d1 := (c1.1 + fauxItalic * (-c1.2), c1.2)
      let d2 := (c2.1 + fauxItalic * (-c2.2), c2.2)
      let e := (e0.1 + fauxItalic * (-e0.2), e0.2)
      segLoop fauxItalic voffset xpen rest (k+1)
        (CPath.cubeTo p (xpen + d1.1) (voffset - d1.2)
          (xpen + d2.1) (voffset - d2.2) (xpen + e.1) (voffset - e.2))
        start0 e

/-- Embeds the rune loop of `FontFace.ToPath`: look up the glyph index and
load the glyph (either failure returns the outline accumulated so far with
advance `0`), add kerning for every pair after the first rune, place the
glyph's segments at the pen position, close a returning sub-path, apply the
faux-bold offset when active, and advance the pen. -/
def toPathLoop (impl : FontImpl) (ff : FontFace) :
    List Nat → Bool → CPath → ℚ → Nat → CPath × ℚ
  | [], _, p, x, _ => (p, x)
  | r :: rs, first, p, x, prevIndex =>
    match impl.glyphIndex r with
    | Except.error _ => (p, 0)
    | Except.ok index =>
      match impl.loadGlyph index (ff.size * ff.scale) with
      | Except.error _ => (p, 0)
      | Except.ok segments =>
        let x := if first then x else
          match impl.kern prevIndex index (ff.size * ff.scale) with
          | Except.ok k => x + fromI26_6 k
          | Except.error _ => x
        let r3 := segLoop ff.fauxItalic ff.voffset x segments 0 p (0, 0) (0, 0)
        let p := r3.1
        let p := if p.isEmpty = false ∧ r3.2.1 = r3.2.2 then p.close else p
        let p := if ff.fauxBold ≠ 0 then CPath.offset p ff.fauxBold else p
        let x := match impl.glyphAdvance index (ff.size * ff.scale) with
          | Except.ok a => x + fromI26_6 a
          | Except.error _ => x
        toPathLoop impl ff rs false p x index

/-- Embeds `FontFace.ToPath` from the source, taking the rune sequence of
the input string: converts the string to one combined outline and its
advance, starting from the empty path and pen position `0`. -/
def ToPath (impl : FontImpl) (ff : FontFace) (runes : List Nat) :
    CPath × ℚ :=
  toPathLoop impl ff runes true CPath.empty 0 0

/-- Whether the facade can process a rune without hitting a glyph-index or
glyph-load error (the two failure exits of `ToPath`). -/
def runeOk (impl : FontImpl) (ff : FontFace) (r : Nat) : Bool :=
  match impl.glyphIndex r with
  | Except.error _ => false
  | Except.ok index =>
    match impl.loadGlyph index (ff.size * ff.scale) with
    | Except.error _ => false
    | Except.ok _ => true

/-!
Concrete inputs used by the claim theorems.
-/

/-- A TrueType contour whose first two points are off-curve and whose third
point is on-curve. -/
def cEx1 : Contour := ⟨[2], [false, false, true], [0, 2, 10], [0, 0, 10]⟩

/-- A TrueType font exposing `cEx1` for every glyph. -/
def sfnt1 : SFNT := ⟨true, 1, fun _ => Except.ok (some cEx1)⟩

/-- Contour data with a second, zero-point contour: the end-point list
`[0, 0]` makes the second contour's point range empty. -/
def cEx2 : Contour := ⟨[0, 0], [true], [5], [7]⟩

/-- A TrueType font exposing `cEx2` for every glyph. -/
def sfnt2 : SFNT := ⟨true, 1, fun _ => Except.ok (some cEx2)⟩

/-- A contour consisting entirely of on-curve points. -/
def cEx8 : Contour := ⟨[2], [true, true, true], [0, 10, 20], [0, 0, 5]⟩

/-- A non-TrueType (CFF) font. -/
def sfntCFF : SFNT := ⟨false, 1000, fun _ => Except.ok none⟩

/-- A TrueType font whose glyphs decode successfully with an absent (nil)
outline. -/
def sfntN : SFNT := ⟨true, 1, fun _ => Except.ok none⟩

/-- A positioned glyph with x-advance 10 and x-offset 5. -/
def gEx : Glyph := ⟨0, 10, 0, 5, 0⟩

/-!
Claim theorems.
-/

/-- C3: for every glyph identifier, size and origin, `GlyphPath` on a font
whose outline format is not TrueType returns the unsupported-format error
and no outline. -/
theorem glyphPath_cff_unsupported (sfnt : SFNT) (glyphID : Nat)
    (size x y : ℚ) (h : sfnt.isTrueType = false) :
    GlyphPath sfnt glyphID size x y = ⟨none, some "CFF not supported"⟩ := by
  simp [GlyphPath, h]

/-- Witness for C3 at a concrete CFF font, glyph and position. -/
theorem glyphPath_cff_unsupported_witness :
    GlyphPath sfntCFF 3 12 5 7 = ⟨none, some "CFF not supported"⟩ :=
  glyphPath_cff_unsupported sfntCFF 3 12 5 7 rfl

/-- C1 (code bug evaluation): on a contour whose first two points are
off-curve and whose third point is on-curve, the decoder emits a second
move operation, so the position the contour is closed back to is the third
point `(10, 10)`, not the midpoint `(1, 0)` of the two off-curve points. -/
theorem glyphPath_first_two_off_eval :
    GlyphPath sfnt1 0 1 0 0 =
      ⟨some ⟨[PathOp.moveTo 1 0, PathOp.moveTo 10 10,
              PathOp.quadTo 5 5 10 10, PathOp.close]⟩, none⟩ ∧
    Path.startPos ⟨[PathOp.moveTo 1 0, PathOp.moveTo 10 10,
              PathOp.quadTo 5 5 10 10, PathOp.close]⟩ = (10, 10) ∧
    ((cEx1.X 0 + cEx1.X 1) / 2, (cEx1.Y 0 + cEx1.Y 1) / 2) ≠
      ((10 : ℚ), (10 : ℚ)) := by
  refine ⟨?_, ?_, ?_⟩
  · simp [GlyphPath, sfnt1, cEx1, processContours, processContour, glyphStep,
      glyphClose, Path.moveTo, Path.quadTo, Path.close, Path.startPos,
      Contour.X, Contour.Y, Contour.on, List.range']
    norm_num
  · simp [Path.startPos]
  · simp [cEx1, Contour.X, Contour.Y]

/-- C2 (counterexample): on contour data containing a zero-point contour,
`GlyphPath` does not fail — it returns no error (the zero-point contour
merely contributes one extra close operation). -/
theorem glyphPath_zero_point_counterexample :
    GlyphPath sfnt2 0 1 0 0 =
      ⟨some ⟨[PathOp.moveTo 5 7, PathOp.close, PathOp.close]⟩, none⟩ := by
  simp [GlyphPath, sfnt2, cEx2, processContours, processContour, glyphStep,
    glyphClose, Path.moveTo, Path.close, Path.startPos,
    Contour.X, Contour.Y, Contour.on, List.range']

/-- Unfolding of `FontFace.Equals` into the six field equations. -/
theorem FontFace.equals_true_iff (ff other : FontFace) :
    FontFace.Equals ff other = true ↔
      (ff.font = other.font ∧ ff.size = other.size ∧ ff.style = other.style ∧
       ff.variant = other.variant ∧ ff.color = other.color ∧
       ff.deco = other.deco) := by
  simp [FontFace.Equals, and_assoc]

/-- C9: two faces are `Equals` iff they reference the identical font object
and agree on size, style, variant, color and decoration list; changing any
single one of these six fields makes the faces unequal. -/
theorem fontFace_equals_iff :
    (∀ ff other : FontFace, FontFace.Equals ff other = true ↔
      (ff.font = other.font ∧ ff.size = other.size ∧ ff.style = other.style ∧
       ff.variant = other.variant ∧ ff.color = other.color ∧
       ff.deco = other.deco)) ∧
    (∀ (ff : FontFace) v, v ≠ ff.font →
      FontFace.Equals ff { ff with font := v } = false) ∧
    (∀ (ff : FontFace) v, v ≠ ff.size →
      FontFace.Equals ff { ff with size := v } = false) ∧
    (∀ (ff : FontFace) v, v ≠ ff.style →
      FontFace.Equals ff { ff with style := v } = false) ∧
    (∀ (ff : FontFace) v, v ≠ ff.variant →
      FontFace.Equals ff { ff with variant := v } = false) ∧
    (∀ (ff : FontFace) v, v ≠ ff.color →
      FontFace.Equals ff { ff with color := v } = false) ∧
    (∀ (ff : FontFace) v, v ≠ ff.deco →
      FontFace.Equals ff { ff with deco := v } = false) := by
  refine ⟨fun ff other => FontFace.equals_true_iff ff other,
    ?_, ?_, ?_, ?_, ?_, ?_⟩
  · intro ff v h
    rw [Bool.eq_false_iff]
    intro hc
    exact h ((FontFace.equals_true_iff _ _).mp hc).1.symm
  · intro ff v h
    rw [Bool.eq_false_iff]
    intro hc
    exact h ((FontFace.equals_true_iff _ _).mp hc).2.1.symm
  · intro ff v h
    rw [Bool.eq_false_iff]
    intro hc
    exact h ((FontFace.equals_true_iff _ _).mp hc).2.2.1.symm
  · intro ff v h
    rw [Bool.eq_false_iff]
    intro hc
    exact h ((FontFace.equals_true_iff _ _).mp hc).2.2.2.1.symm
  · intro ff v h
    rw [Bool.eq_false_iff]
    intro hc
    exact h ((FontFace.equals_true_iff _ _).mp hc).2.2.2.2.1.symm
  · intro ff v h
    rw [Bool.eq_false_iff]
    intro hc
    exact h ((FontFace.equals_true_iff _ _).mp hc).2.2.2.2.2.symm

/-- Witness for C9: a concrete pair of equal faces and a concrete
single-field change that breaks equality. -/
theorem fontFace_equals_iff_witness :
    (FontFace.Equals ⟨1, 12, 0, 0, (1, 2, 3, 4), [5], 1, 0, 0, 0⟩
        ⟨1, 12, 0, 0, (1, 2, 3, 4), [5], 1, 0, 0, 0⟩ = true) ∧
    (FontFace.Equals ⟨1, 12, 0, 0, (1, 2, 3, 4), [5], 1, 0, 0, 0⟩
        ⟨2, 12, 0, 0, (1, 2, 3, 4), [5], 1, 0, 0, 0⟩ = false) := by
  constructor
  · exact (fontFace_equals_iff.1 _ _).mpr (by norm_num)
  · exact fontFace_equals_iff.2.1 ⟨1, 12, 0, 0, (1, 2, 3, 4), [5], 1, 0, 0, 0⟩
      2 (by norm_num)

/-- Decoding a non-empty byte list always consumes at least one byte. -/
theorem decodeRune_size_pos (s : List Nat) (h : s ≠ []) :
    1 ≤ (decodeRune s).2 := by
  match s with
  | [] => exact absurd rfl h
  | b0 :: rest =>
    simp only [decodeRune]
    repeat' split
    all_goals simp

/-- The quote replacement shortens the remaining text: the new length plus
one is at most the old length plus the advance. -/
theorem quoteReplace_bound (s : List Nat) (i : Nat) (prev quote next : Nat)
    (b : Bool) (hi : i < s.length) :
    (quoteReplace s i prev quote next b).1.length + 1 ≤
      s.length + (quoteReplace s i prev quote next b).2.1 := by
  simp only [quoteReplace, stringReplace]
  repeat' split
  all_goals simp
  all_goals omega

/-- Every branch of the scan body strictly shrinks the unscanned suffix:
the new length plus one is at most the old length plus the advance. -/
theorem typoBody_bound (s : List Nat) (i rPrev r sz : Nat) (inS inD : Bool)
    (hi : i < s.length) (hsz : 1 ≤ sz) :
    (typoBody s i rPrev r sz inS inD).1.length + 1 ≤
      s.length + (typoBody s i rPrev r sz inS inD).2.1 := by
  unfold typoBody
  by_cases h1 : i + 2 < s.length ∧ s.getD i 0 = 46 ∧ s.getD (i+1) 0 = 46 ∧
      s.getD (i+2) 0 = 46
  · rw [if_pos h1]
    have hl := h1.1
    simp [stringReplace]
    omega
  rw [if_neg h1]
  by_cases h2 : i + 4 < s.length ∧ s.getD i 0 = 46 ∧ s.getD (i+1) 0 = 32 ∧
      s.getD (i+2) 0 = 46 ∧ s.getD (i+3) 0 = 32 ∧ s.getD (i+4) 0 = 46
  · rw [if_pos h2]
    have hl := h2.1
    simp [stringReplace]
    omega
  rw [if_neg h2]
  by_cases h3 : i + 2 < s.length ∧ s.getD i 0 = 45 ∧ s.getD (i+1) 0 = 45 ∧
      s.getD (i+2) 0 = 45
  · rw [if_pos h3]
    have hl := h3.1
    simp [stringReplace]
    omega
  rw [if_neg h3]
  by_cases h4 : i + 1 < s.length ∧ s.getD i 0 = 45 ∧ s.getD (i+1) 0 = 45
  · rw [if_pos h4]
    have hl := h4.1
    simp [stringReplace]
    omega
  rw [if_neg h4]
  by_cases h5 : i + 2 < s.length ∧ s.getD i 0 = 40 ∧ s.getD (i+1) 0 = 99 ∧
      s.getD (i+2) 0 = 41
  · rw [if_pos h5]
    have hl := h5.1
    simp [stringReplace]
    omega
  rw [if_neg h5]
  by_cases h6 : i + 2 < s.length ∧ s.getD i 0 = 40 ∧ s.getD (i+1) 0 = 114 ∧
      s.getD (i+2) 0 = 41
  · rw [if_pos h6]
    have hl := h6.1
    simp [stringReplace]
    omega
  rw [if_neg h6]
  by_cases h7 : i + 3 < s.length ∧ s.getD i 0 = 40 ∧ s.getD (i+1) 0 = 116 ∧
      s.getD (i+2) 0 = 109 ∧ s.getD (i+3) 0 = 41
  · rw [if_pos h7]
    have hl := h7.1
    simp [stringReplace]
    omega
  rw [if_neg h7]
  by_cases h8 : s.getD i 0 = 34 ∨ s.getD i 0 = 39
  · rw [if_pos h8]
    split
    · exact quoteReplace_bound _ _ _ _ _ _ hi
    · exact quoteReplace_bound _ _ _ _ _ _ hi
  rw [if_neg h8]
  by_cases h9 : i + 2 < s.length ∧ s.getD (i+1) 0 = 47 ∧
      isWordBoundary rPrev = true ∧ rPrev ≠ 47
  · rw [if_pos h9]
    have hl := h9.1
    by_cases h10 : isWordBoundary (nextRune s (i+3)) = true ∧
        nextRune s (i+3) ≠ 47
    · rw [if_pos h10]
      by_cases h11 : s.getD i 0 = 49 ∧ s.getD (i+2) 0 = 50
      · rw [if_pos h11]
        simp [stringReplace]
        omega
      rw [if_neg h11]
      by_cases h12 : s.getD i 0 = 49 ∧ s.getD (i+2) 0 = 52
      · rw [if_pos h12]
        simp [stringReplace]
        omega
      rw [if_neg h12]
      by_cases h13 : s.getD i 0 = 51 ∧ s.getD (i+2) 0 = 52
      · rw [if_pos h13]
        simp [stringReplace]
        omega
      rw [if_neg h13]
      by_cases h14 : s.getD i 0 = 43 ∧ s.getD (i+2) 0 = 45
      · rw [if_pos h14]
        simp [stringReplace]
        omega
      rw [if_neg h14]
      simp
      omega
    · rw [if_neg h10]
      simp
      omega
  rw [if_neg h9]
  simp
  omega

/-- Fuel at least the length of the unscanned suffix plus one suffices for
the scan loop to finish. -/
theorem subTypoLoop_isSome :
    ∀ (fuel : Nat) (s : List Nat) (i r size : Nat) (inS inD : Bool),
      s.length + 1 ≤ fuel + (i + size) →
      (subTypoLoop fuel s i r size inS inD).isSome = true := by
  intro fuel
  induction fuel with
  | zero =>
    intro s i r size inS inD h
    have hend : s.length ≤ i + size := by omega
    simp [subTypoLoop, hend]
  | succ f ih =>
    intro s i r size inS inD h
    by_cases hend : s.length ≤ i + size
    · simp [subTypoLoop, hend]
    · have hi : i + size < s.length := by omega
      have hne : s.drop (i + size) ≠ [] := by
        intro hnil
        have := congrArg List.length hnil
        simp at this
        omega
      have hsz := decodeRune_size_pos (s.drop (i + size)) hne
      have hbd := typoBody_bound s (i + size) r
          (decodeRune (s.drop (i+size))).1 (decodeRune (s.drop (i+size))).2
          inS inD hi hsz
      rcases hb : typoBody s (i + size) r (decodeRune (s.drop (i+size))).1
          (decodeRune (s.drop (i+size))).2 inS inD with ⟨s2, sz2, a2, b2⟩
      rw [hb] at hbd
      have happ := ih s2 (i + size) (decodeRune (s.drop (i+size))).1 sz2 a2 b2
        (by simp at hbd; omega)
      simp only [subTypoLoop, hb] at happ ⊢
      simp [hend, happ]

/-- C5: the substitution scan is total — for every input byte list
(malformed encodings included) and incoming quote flags, the scan loop
finishes within fuel `s.length + 1` and `substituteTypography` returns its
result. -/
theorem substituteTypography_total (s : List Nat) (inS inD : Bool) :
    subTypoLoop (s.length + 1) s 0 0 0 inS inD =
      some (substituteTypography true s inS inD) := by
  have h := subTypoLoop_isSome (s.length + 1) s 0 0 0 inS inD (by omega)
  rcases heq : subTypoLoop (s.length + 1) s 0 0 0 inS inD with _ | v
  · rw [heq] at h
    simp at h
  · simp [substituteTypography, heq]

/-- C6: at every scan position the three-dash form is checked before the
two-dash form — three dashes become an em-dash, an exactly-two-dash run
becomes an en-dash — and the input "1870--1880" yields "1870" en-dash
"1880". -/
theorem typo_dash_priority :
    (∀ (s : List Nat) (i rPrev r sz : Nat) (inS inD : Bool),
      i + 2 < s.length → s.getD i 0 = 45 → s.getD (i+1) 0 = 45 →
      s.getD (i+2) 0 = 45 →
      typoBody s i rPrev r sz inS inD =
        (s.take i ++ [226, 128, 148] ++ s.drop (i+3), 3, inS, inD)) ∧
    (∀ (s : List Nat) (i rPrev r sz : Nat) (inS inD : Bool),
      i + 1 < s.length → s.getD i 0 = 45 → s.getD (i+1) 0 = 45 →
      ¬(i + 2 < s.length ∧ s.getD (i+2) 0 = 45) →
      typoBody s i rPrev r sz inS inD =
        (s.take i ++ [226, 128, 147] ++ s.drop (i+2), 3, inS, inD)) ∧
    substituteTypography true [49, 56, 55, 48, 45, 45, 49, 56, 56, 48]
        false false =
      ([49, 56, 55, 48, 226, 128, 147, 49, 56, 56, 48], false, false) := by
  refine ⟨?_, ?_, by decide⟩
  · intro s i rPrev r sz inS inD hlen hb0 hb1 hb2
    unfold typoBody
    rw [if_neg (fun hc => absurd (hb0.symm.trans hc.2.1) (by decide)),
      if_neg (fun hc => absurd (hb0.symm.trans hc.2.1) (by decide)),
      if_pos ⟨hlen, hb0, hb1, hb2⟩]
    simp [stringReplace]
  · intro s i rPrev r sz inS inD hlen hb0 hb1 hnot
    unfold typoBody
    rw [if_neg (fun hc => absurd (hb0.symm.trans hc.2.1) (by decide)),
      if_neg (fun hc => absurd (hb0.symm.trans hc.2.1) (by decide)),
      if_neg (fun hc => hnot ⟨hc.1, hc.2.2.2⟩), if_pos ⟨hlen, hb0, hb1⟩]
    simp [stringReplace]

/-- Witness for C6: the concrete runs "---" and "--a" of the scan body. -/
theorem typo_dash_priority_witness :
    typoBody [45, 45, 45] 0 0 45 1 false false =
      ([226, 128, 148], 3, false, false) ∧
    typoBody [45, 45, 97] 0 0 45 1 false false =
      ([226, 128, 147, 97], 3, false, false) := by
  constructor
  · have h := typo_dash_priority.1 [45, 45, 45] 0 0 45 1 false false
      (by decide) rfl rfl rfl
    simpa using h
  · have h := typo_dash_priority.2.1 [45, 45, 97] 0 0 45 1 false false
      (by decide) rfl rfl (by decide)
    simpa using h

/-- Each replacement in the fraction table is two bytes long. -/
theorem fracTable_len : ∀ e ∈ fracTable, e.2.2.length = 2 := by decide

/-- Evaluation of the scan body on a digit-slash-digit pattern from the
fraction table: the substitution fires exactly under the word-boundary
conditions of the source. -/
theorem typoBody_frac_eval (s : List Nat) (i rPrev r sz : Nat)
    (inS inD : Bool) (a b : Nat) (t : List Nat)
    (hmem : (a, b, t) ∈ fracTable) (hlen : i + 2 < s.length)
    (hb0 : s.getD i 0 = a) (hb1 : s.getD (i+1) 0 = 47)
    (hb2 : s.getD (i+2) 0 = b) :
    typoBody s i rPrev r sz inS inD =
      if isWordBoundary rPrev = true ∧ rPrev ≠ 47 ∧
          isWordBoundary (nextRune s (i+3)) = true ∧ nextRune s (i+3) ≠ 47
      then (s.take i ++ t ++ s.drop (i+3), 2, inS, inD)
      else (s, sz, inS, inD) := by
  simp only [fracTable, List.mem_cons, List.not_mem_nil, or_false] at hmem
  rcases hmem with hcase | hcase | hcase | hcase <;>
    (obtain ⟨rfl, rfl, rfl⟩ : a = _ ∧ b = _ ∧ t = _ := by
      simpa [Prod.ext_iff] using hcase) <;>
    unfold typoBody <;>
    rw [if_neg (fun hc => absurd (hb0.symm.trans hc.2.1) (by decide)),
      if_neg (fun hc => absurd (hb0.symm.trans hc.2.1) (by decide)),
      if_neg (fun hc => absurd (hb0.symm.trans hc.2.1) (by decide)),
      if_neg (fun hc => absurd (hb0.symm.trans hc.2.1) (by decide)),
      if_neg (fun hc => absurd (hb0.symm.trans hc.2.1) (by decide)),
      if_neg (fun hc => absurd (hb0.symm.trans hc.2.1) (by decide)),
      if_neg (fun hc => absurd (hb0.symm.trans hc.2.1) (by decide)),
      if_neg (fun hc => hc.elim
        (fun h => absurd (hb0.symm.trans h) (by decide))
        (fun h => absurd (hb0.symm.trans h) (by decide)))] <;>
    by_cases hout : isWordBoundary rPrev = true ∧ rPrev ≠ 47
  case _ =>
    rw [if_pos (And.intro hlen (And.intro hb1
      (And.intro hout.1 hout.2)))]
    by_cases hin : isWordBoundary (nextRune s (i+3)) = true ∧
        nextRune s (i+3) ≠ 47
    · rw [if_pos hin, if_pos (And.intro hb0 hb2),
        if_pos (And.intro hout.1 (And.intro hout.2
          (And.intro hin.1 hin.2)))]
      simp [stringReplace]
    · rw [if_neg hin, if_neg (fun hc => hin ⟨hc.2.2.1, hc.2.2.2⟩)]
  case _ =>
    rw [if_neg (fun hc => hout ⟨hc.2.2.1, hc.2.2.2⟩),
      if_neg (fun hc => hout ⟨hc.1, hc.2.1⟩)]
  case _ =>
    rw [if_pos (And.intro hlen (And.intro hb1
      (And.intro hout.1 hout.2)))]
    by_cases hin : isWordBoundary (nextRune s (i+3)) = true ∧
        nextRune s (i+3) ≠ 47
    · rw [if_pos hin,
        if_neg (fun hc => absurd (hb2.symm.trans hc.2) (by decide)),
        if_pos (And.intro hb0 hb2),
        if_pos (And.intro hout.1 (And.intro hout.2
          (And.intro hin.1 hin.2)))]
      simp [stringReplace]
    · rw [if_neg hin, if_neg (fun hc => hin ⟨hc.2.2.1, hc.2.2.2⟩)]
  case _ =>
    rw [if_neg (fun hc => hout ⟨hc.2.2.1, hc.2.2.2⟩),
      if_neg (fun hc => hout ⟨hc.1, hc.2.1⟩)]
  case _ =>
    rw [if_pos (And.intro hlen (And.intro hb1
      (And.intro hout.1 hout.2)))]
    by_cases hin : isWordBoundary (nextRune s (i+3)) = true ∧
        nextRune s (i+3) ≠ 47
    · rw [if_pos hin,
        if_neg (fun hc => absurd (hb0.symm.trans hc.1) (by decide)),
        if_neg (fun hc => absurd (hb0.symm.trans hc.1) (by decide)),
        if_pos (And.intro hb0 hb2),
        if_pos (And.intro hout.1 (And.intro hout.2
          (And.intro hin.1 hin.2)))]
      simp [stringReplace]
    · rw [if_neg hin, if_neg (fun hc => hin ⟨hc.2.2.1, hc.2.2.2⟩)]
  case _ =>
    rw [if_neg (fun hc => hout ⟨hc.2.2.1, hc.2.2.2⟩),
      if_neg (fun hc => hout ⟨hc.1, hc.2.1⟩)]
  case _ =>
    rw [if_pos (And.intro hlen (And.intro hb1
      (And.intro hout.1 hout.2)))]
    by_cases hin : isWordBoundary (nextRune s (i+3)) = true ∧
        nextRune s (i+3) ≠ 47
    · rw [if_pos hin,
        if_neg (fun hc => absurd (hb0.symm.trans hc.1) (by decide)),
        if_neg (fun hc => absurd (hb0.symm.trans hc.1) (by decide)),
        if_neg (fun hc => absurd (hb0.symm.trans hc.1) (by decide)),
        if_pos (And.intro hb0 hb2),
        if_pos (And.intro hout.1 (And.intro hout.2
          (And.intro hin.1 hin.2)))]
      simp [stringReplace]
    · rw [if_neg hin, if_neg (fun hc => hin ⟨hc.2.2.1, hc.2.2.2⟩)]
  case _ =>
    rw [if_neg (fun hc => hout ⟨hc.2.2.1, hc.2.2.2⟩),
      if_neg (fun hc => hout ⟨hc.1, hc.2.1⟩)]

/-- C7: a digit-slash-digit pattern from the fraction table is replaced
exactly when the rune before and the rune after the three-byte span are
word boundaries and neither is a slash; and "1/2 cup" at text start yields
the one-half character followed by " cup". -/
theorem typo_fraction_boundary :
    (∀ (s : List Nat) (i rPrev r sz : Nat) (inS inD : Bool)
        (a b : Nat) (t : List Nat), (a, b, t) ∈ fracTable →
      i + 2 < s.length → s.getD i 0 = a → s.getD (i+1) 0 = 47 →
      s.getD (i+2) 0 = b →
      (typoBody s i rPrev r sz inS inD =
          (s.take i ++ t ++ s.drop (i+3), 2, inS, inD) ↔
        (isWordBoundary rPrev = true ∧ rPrev ≠ 47 ∧
         isWordBoundary (nextRune s (i+3)) = true ∧
         nextRune s (i+3) ≠ 47))) ∧
    substituteTypography true [49, 47, 50, 32, 99, 117, 112] false false =
      ([194, 189, 32, 99, 117, 112], false, false) := by
  refine ⟨?_, by decide⟩
  intro s i rPrev r sz inS inD a b t hmem hlen hb0 hb1 hb2
  have ht : t.length = 2 := fracTable_len (a, b, t) hmem
  rw [typoBody_frac_eval s i rPrev r sz inS inD a b t hmem hlen hb0 hb1 hb2]
  by_cases hc : isWordBoundary rPrev = true ∧ rPrev ≠ 47 ∧
      isWordBoundary (nextRune s (i+3)) = true ∧ nextRune s (i+3) ≠ 47
  · rw [if_pos hc]
    simp [hc]
  · rw [if_neg hc]
    constructor
    · intro heq
      exfalso
      have hfst := congrArg Prod.fst heq
      have hlens := congrArg List.length hfst
      simp [List.length_append, List.length_take, List.length_drop, ht]
        at hlens
      omega
    · intro hc2
      exact absurd hc2 hc

/-- Witness for C7: the scan body fires on the three-byte input "1/2". -/
theorem typo_fraction_boundary_witness :
    typoBody [49, 47, 50] 0 0 49 1 false false =
      ([194, 189], 2, false, false) := by
  have h := (typo_fraction_boundary.1 [49, 47, 50] 0 0 49 1 false false
      49 50 [194, 189] (by decide) (by decide) rfl rfl rfl).mpr (by decide)
  simpa using h

/-- Folding the point loop over on-curve points from a settled state (past
the first point, no pending control point) appends exactly one straight
segment per point. -/
theorem glyphFold_lines (c : Contour) (f x y : ℚ) :
    ∀ (L : List Nat) (st : GState),
      (∀ k ∈ L, c.on k = true) → st.first = false →
      st.firstOff = false → st.prevOff = false →
      L.foldl (glyphStep c f x y) st =
        ⟨⟨st.p.ops ++ L.map
            (fun k => PathOp.lineTo (x + c.X k * f) (y + c.Y k * f))⟩,
          false, false, false⟩ := by
  intro L
  induction L with
  | nil =>
    intro st h hf hfo hp
    cases st with
    | mk p first firstOff prevOff =>
      cases p
      simp_all
  | cons k L ih =>
    intro st h hf hfo hp
    have hk := h k (by simp)
    have hstep : glyphStep c f x y st k =
        { st with p := st.p.lineTo (x + c.X k * f) (y + c.Y k * f) } := by
      simp [glyphStep, hf, hp, hk]
    simp only [List.foldl_cons, hstep]
    rw [ih { st with p := st.p.lineTo (x + c.X k * f) (y + c.Y k * f) }
      (fun j hj => h j (List.mem_cons_of_mem _ hj)) hf hfo hp]
    simp [Path.lineTo]

/-- C8: a contour all of whose points (indices `j` to `e`) are on-curve
decodes from any already-built path into a move, one straight segment per
remaining point, and a close — no quadratic curves — and the number of
segments (the closing one included) equals the number of points. -/
theorem glyphPath_all_on_curve (c : Contour) (f x y : ℚ) (j e : Nat)
    (p : Path) (hje : j ≤ e) (hon : ∀ k, j ≤ k → k ≤ e → c.on k = true) :
    (processContour c f x y e j p).1.ops =
      p.ops ++ (PathOp.moveTo (x + c.X j * f) (y + c.Y j * f) ::
        ((List.range' (j+1) (e - j)).map
          (fun k => PathOp.lineTo (x + c.X k * f) (y + c.Y k * f)) ++
         [PathOp.close])) ∧
    ((List.range' (j+1) (e - j)).map
        (fun k => PathOp.lineTo (x + c.X k * f) (y + c.Y k * f))).length + 1 =
      e + 1 - j := by
  constructor
  · unfold processContour
    have hrange : List.range' j (e + 1 - j) =
        j :: List.range' (j+1) (e - j) := by
      have he : e + 1 - j = (e - j) + 1 := by omega
      rw [he, List.range'_succ]
    rw [hrange]
    have hstep : glyphStep c f x y ⟨p, true, false, false⟩ j =
        ⟨p.moveTo (x + c.X j * f) (y + c.Y j * f), false, false, false⟩ := by
      simp [glyphStep, hon j le_rfl hje]
    have honL : ∀ k ∈ List.range' (j+1) (e - j), c.on k = true := by
      intro k hk
      have hb := List.mem_range'_1.mp hk
      exact hon k (by omega) (by omega)
    simp only [List.foldl_cons, hstep]
    rw [glyphFold_lines c f x y (List.range' (j+1) (e - j)) _ honL rfl rfl rfl]
    simp [glyphClose, Path.close, Path.moveTo]
  · simp
    omega

/-- Witness for C8: the three-point all-on-curve contour `cEx8` decodes
into a move, two lines and a close — three segments for three points. -/
theorem glyphPath_all_on_curve_witness :
    (processContour cEx8 1 0 0 2 0 ⟨[]⟩).1.ops =
      [PathOp.moveTo 0 0, PathOp.lineTo 10 0, PathOp.lineTo 20 5,
       PathOp.close] ∧
    ((List.range' 1 2).map
        (fun k => PathOp.lineTo (0 + cEx8.X k * 1)
          (0 + cEx8.Y k * 1))).length + 1 = 3 := by
  have h := glyphPath_all_on_curve cEx8 1 0 0 0 2 ⟨[]⟩ (by omega)
    (fun k h1 h2 => by interval_cases k <;> rfl)
  constructor
  · rw [h.1]
    simp [cEx8, Contour.X, Contour.Y, List.range']
  · simp

/-- Processing a contour list decomposes: the first block runs first, the
second continues from the index the first block ends at. -/
theorem processContours_append (c : Contour) (f x y : ℚ) :
    ∀ (l1 l2 : List Nat) (i : Nat) (p : Path),
      processContours c f x y (l1 ++ l2) i p =
        processContours c f x y l2 (nextIndex l1 i)
          (processContours c f x y l1 i p) := by
  intro l1
  induction l1 with
  | nil => intro l2 i p; rfl
  | cons e es ih =>
    intro l2 i p
    simp only [List.cons_append, processContours, nextIndex]
    exact ih l2 _ _

/-- A contour whose point range is empty (its end point lies before the
current point index) contributes exactly one close operation and leaves the
point index unchanged. -/
theorem processContour_empty (c : Contour) (f x y : ℚ) (e i : Nat)
    (p : Path) (h : e < i) :
    processContour c f x y e i p = (⟨p.ops ++ [PathOp.close]⟩, i) := by
  have hz : e + 1 - i = 0 := by omega
  simp [processContour, hz, glyphClose, Path.close]

/-- C2 (amended): contour data containing a zero-point contour does not
make `GlyphPath` fail — it returns no error, the sub-paths emitted for the
contours before the zero-point one are left intact as a prefix of the
result, and the zero-point contour itself contributes exactly one close
operation before processing continues with the remaining contours. -/
theorem glyphPath_zero_point (sfnt : SFNT) (gid : Nat) (c : Contour)
    (es1 : List Nat) (e : Nat) (es2 : List Nat) (size x y : ℚ)
    (ht : sfnt.isTrueType = true)
    (hc : sfnt.glyphContour gid = Except.ok (some c))
    (hend : c.endPoints = es1 ++ e :: es2)
    (hzero : e < nextIndex es1 0) :
    GlyphPath sfnt gid size x y =
      ⟨some (processContours c (size / sfnt.unitsPerEm) x y es2
          (nextIndex es1 0)
          ⟨(processContours c (size / sfnt.unitsPerEm) x y es1 0
              ⟨[]⟩).ops ++ [PathOp.close]⟩),
        none⟩ := by
  simp only [GlyphPath, ht, if_true, hc, hend]
  rw [processContours_append c (size / sfnt.unitsPerEm) x y es1 (e :: es2)
    0 ⟨[]⟩]
  simp only [processContours]
  rw [processContour_empty c (size / sfnt.unitsPerEm) x y e
    (nextIndex es1 0) _ hzero]

/-- Witness for C2: the amended statement instantiated at the concrete
contour data `cEx2` whose second contour has zero points. -/
theorem glyphPath_zero_point_witness :
    GlyphPath sfnt2 0 1 0 0 =
      ⟨some (processContours cEx2 (1 / sfnt2.unitsPerEm) 0 0 []
          (nextIndex [0] 0)
          ⟨(processContours cEx2 (1 / sfnt2.unitsPerEm) 0 0 [0] 0
              ⟨[]⟩).ops ++ [PathOp.close]⟩),
        none⟩ :=
  glyphPath_zero_point sfnt2 0 cEx2 [0] 0 [] 1 0 0 rfl rfl rfl (by decide)

/-- Wrapping distributes over an already-wrapped left summand. -/
theorem wrap32_add_left (a b : Int) :
    wrap32 (wrap32 a + b) = wrap32 (a + b) := by
  unfold wrap32
  omega

/-- Wrapping is idempotent. -/
theorem wrap32_wrap32 (a : Int) : wrap32 (wrap32 a) = wrap32 a := by
  have h := wrap32_add_left a 0
  simpa using h

/-- The error component of `GlyphPath` does not depend on the position the
glyph is placed at. -/
theorem glyphPath_err_indep (sfnt : SFNT) (gid : Nat) (size x y u v : ℚ) :
    (GlyphPath sfnt gid size x y).err = (GlyphPath sfnt gid size u v).err := by
  by_cases ht : sfnt.isTrueType = true
  · simp only [GlyphPath, ht, if_true]
    rcases hgc : sfnt.glyphContour gid with e | oc
    · rfl
    · rcases oc with _ | c <;> rfl
  · simp only [GlyphPath, ht]
    simp [Bool.not_eq_true] at ht
    simp [ht]

/-- The glyph loop of `StringPath` accumulates the wrapped sum of the
x-advances into the pen when every glyph decodes without error. -/
theorem stringPathLoop_penX (sfnt : SFNT) (size f : ℚ) :
    ∀ (gs : List Glyph) (p : Path) (x y : Int),
      (∀ g ∈ gs, (GlyphPath sfnt g.id size 0 0).err = none) →
      wrap32 x = x →
      (stringPathLoop sfnt size f gs p x y).penX =
          wrap32 (x + (gs.map (fun g => g.xAdvance)).sum) ∧
        (stringPathLoop sfnt size f gs p x y).err = none := by
  intro gs
  induction gs with
  | nil =>
    intro p x y h hx
    have h0 : wrap32 (x + (([] : List Glyph).map
        (fun g => g.xAdvance)).sum) = wrap32 x := by norm_num
    exact ⟨(h0.trans hx).symm, rfl⟩
  | cons g gs ih =>
    intro p x y h hx
    have herr : (GlyphPath sfnt g.id size
        ((wrap32 (x + g.xOffset) : ℚ) * f)
        ((wrap32 (y + g.yOffset) : ℚ) * f)).err = none := by
      rw [glyphPath_err_indep sfnt g.id size _ _ 0 0]
      exact h g (by simp)
    simp only [stringPathLoop, herr]
    have hrec := ih (match (GlyphPath sfnt g.id size
          ((wrap32 (x + g.xOffset) : ℚ) * f)
          ((wrap32 (y + g.yOffset) : ℚ) * f)).path with
        | some q => p.append q
        | none => p)
      (wrap32 (x + g.xAdvance)) (wrap32 (y + g.yAdvance))
      (fun a ha => h a (List.mem_cons_of_mem _ ha))
      (wrap32_wrap32 _)
    refine ⟨?_, hrec.2⟩
    rw [hrec.1, wrap32_add_left]
    simp [add_assoc]

/-- C4 (amended): when every glyph of the run decodes successfully, the
final pen x-position equals the int32-wrapped sum of the glyphs' x-advances
alone — the per-glyph x-offsets enter only the position each outline is
placed at, not the pen — and no error is reported. -/
theorem stringPath_pen_advances (sfnt : SFNT) (glyphs : List Glyph)
    (size : ℚ)
    (h : ∀ g ∈ glyphs, (GlyphPath sfnt g.id size 0 0).err = none) :
    (StringPath sfnt glyphs size).penX =
        wrap32 ((glyphs.map (fun g => g.xAdvance)).sum) ∧
      (StringPath sfnt glyphs size).err = none := by
  have hres := stringPathLoop_penX sfnt size (size / sfnt.unitsPerEm)
    glyphs ⟨[]⟩ 0 0 h (by decide)
  unfold StringPath
  refine ⟨?_, hres.2⟩
  rw [hres.1]
  norm_num

/-- Witness for C4: the single-glyph run `[gEx]` on the always-decoding
font `sfntN`. -/
theorem stringPath_pen_advances_witness :
    (StringPath sfntN [gEx] 1).penX =
        wrap32 (([gEx].map (fun g => g.xAdvance)).sum) ∧
      (StringPath sfntN [gEx] 1).err = none :=
  stringPath_pen_advances sfntN [gEx] 1 (by decide)

/-- C4 (counterexample): for the run `[gEx]` (x-advance 10, x-offset 5) the
final pen x-position is 10, not the sum of advances plus offsets (15). -/
theorem stringPath_offset_counterexample :
    (StringPath sfntN [gEx] 1).penX ≠
      (([gEx].map (fun g => g.xAdvance)).sum +
       ([gEx].map (fun g => g.xOffset)).sum) := by
  have h10 : (StringPath sfntN [gEx] 1).penX = 10 := by
    have h := stringPath_pen_advances sfntN [gEx] 1 (by decide)
    rw [h.1]
    decide
  rw [h10]
  decide

/-- C10: if the glyph-index lookup or the glyph load fails on some rune,
`ToPath` returns the path accumulated from the runes already processed
together with an advance of exactly 0 (and its signature reports no
error). -/
theorem toPathLoop_failure (impl : FontImpl) (ff : FontFace)
    (rs2 : List Nat) (r : Nat) (hr : runeOk impl ff r = false) :
    ∀ (rs1 : List Nat) (first : Bool) (p : CPath) (x : ℚ) (prev : Nat),
      (∀ a ∈ rs1, runeOk impl ff a = true) →
      toPathLoop impl ff (rs1 ++ r :: rs2) first p x prev =
        ((toPathLoop impl ff rs1 first p x prev).1, 0) := by
  intro rs1
  induction rs1 with
  | nil =>
    intro first p x prev h
    simp only [List.nil_append, toPathLoop]
    unfold runeOk at hr
    rcases hgi : impl.glyphIndex r with e | index
    · simp [hgi, toPathLoop]
    · simp only [hgi] at hr
      rcases hlg : impl.loadGlyph index (ff.size * ff.scale) with e | segs
      · simp [hgi, hlg, toPathLoop]
      · simp only [hlg] at hr
        exact Bool.noConfusion hr
  | cons a rs1 ih =>
    intro first p x prev h
    have ha := h a (by simp)
    unfold runeOk at ha
    rcases hgi : impl.glyphIndex a with e | index
    · simp only [hgi] at ha
      exact Bool.noConfusion ha
    · simp only [hgi] at ha
      rcases hlg : impl.loadGlyph index (ff.size * ff.scale) with e | segs
      · simp only [hlg] at ha
        exact Bool.noConfusion ha
      · simp only [List.cons_append, toPathLoop, hgi, hlg]
        exact ih _ _ _ _ (fun b hb => h b (List.mem_cons_of_mem _ hb))

/-- C10 stated on `ToPath`: the failing run splits as processed prefix,
failing rune, rest. -/
theorem toPath_failure (impl : FontImpl) (ff : FontFace) (rs1 : List Nat)
    (r : Nat) (rs2 : List Nat)
    (h1 : ∀ a ∈ rs1, runeOk impl ff a = true)
    (h2 : runeOk impl ff r = false) :
    ToPath impl ff (rs1 ++ r :: rs2) = ((ToPath impl ff rs1).1, 0) :=
  toPathLoop_failure impl ff rs2 r h2 rs1 true CPath.empty 0 0 h1

/-- A font capability whose glyph-index lookup fails exactly on rune 7. -/
def implEx : FontImpl :=
  ⟨fun r => if r = 7 then Except.error () else Except.ok r,
   fun _ _ => Except.ok [], fun _ _ _ => Except.ok 0,
   fun _ _ => Except.ok 64⟩

/-- A plain face at size 1. -/
def ffEx : FontFace := ⟨1, 1, 0, 0, (0, 0, 0, 0), [], 1, 0, 0, 0⟩

/-- Witness for C10: rune 7 fails after the processed prefix `[5]`. -/
theorem toPath_failure_witness :
    ToPath implEx ffEx ([5] ++ 7 :: [9]) = ((ToPath implEx ffEx [5]).1, 0) :=
  toPath_failure implEx ffEx [5] 7 [9] (by decide) (by decide)

end Canvas
